import Mathlib

/-!
Shallow embedding of the interview-analyzer scoring module (`analysis.py`).

Strings are embedded as `List Char`; Python floats as `ℚ`; Python ints as
`ℤ` (or `ℕ` where the source value is a count).  A sentiment mapping is
embedded by its compound entry: functions that access it with
`sentiment.get("compound", 0.0)` take an `Option ℚ`, functions that index
`sentiment["compound"]` directly take a `ℚ`.
-/

/-- Lower-casing of a text, embedding Python `str.lower` (ASCII letters). -/
def lowerL (s : List Char) : List Char :=
  s.map Char.toLower

/-- Embedding of Python `str.strip()`: drop leading and trailing whitespace. -/
def stripL (s : List Char) : List Char :=
  ((s.dropWhile Char.isWhitespace).reverse.dropWhile Char.isWhitespace).reverse

/-- Scanner for `countOcc`: at `skip = 0` try to match `pat` at the
current position; on a match count it and skip the rest of the match
(non-overlapping), otherwise advance one character. -/
def countOccGo (pat : List Char) : Nat → List Char → Nat
  | _, [] => 0
  | 0, c :: rest =>
    if pat.isPrefixOf (c :: rest) then 1 + countOccGo pat (pat.length - 1) rest
    else countOccGo pat 0 rest
  | k + 1, _ :: rest => countOccGo pat k rest

/-- Embedding of Python `str.count(sub)`: number of non-overlapping
occurrences of `pat` in `s`, scanning left to right (an empty pattern
counts `s.length + 1` times, as in Python). -/
def countOcc (pat : List Char) (s : List Char) : Nat :=
  if pat.isEmpty then s.length + 1 else countOccGo pat 0 s

/-- Embedding of the Python substring test `pat in s` (contiguous substring). -/
def substrB (pat : List Char) (s : List Char) : Bool :=
  match s with
  | [] => pat.isEmpty
  | c :: rest => pat.isPrefixOf (c :: rest) || substrB pat rest

/-- Scanner for `runsOf`: `cur` holds the current run, reversed. -/
def runsGo (p : Char → Bool) (cur : List Char) : List Char → List (List Char)
  | [] => if cur.isEmpty then [] else [cur.reverse]
  | c :: rest =>
    if p c then runsGo p (c :: cur) rest
    else if cur.isEmpty then runsGo p [] rest
    else cur.reverse :: runsGo p [] rest

/-- Maximal runs of characters satisfying `p`, used to embed both
`re.findall` of a character class and Python `str.split()`. -/
def runsOf (p : Char → Bool) (s : List Char) : List (List Char) :=
  runsGo p [] s

/-- Characters matched by the regex class `\w` (ASCII letters, digits, underscore). -/
def isWordChar (c : Char) : Bool :=
  c.isAlphanum || c == '_'

/-- Embedding of Python `str.split()` (split on whitespace, dropping empties). -/
def splitWs (s : List Char) : List (List Char) :=
  runsOf (fun c => !c.isWhitespace) s

/-- Word count of a sentence, embedding `len(s.split())`. -/
def wordCountPy (s : List Char) : Nat :=
  (splitWs s).length

/-- Embedding of `count_words`: tokens are the `re.findall(r"\w+", text)`
matches; returns the token count together with the tokens. -/
def count_words (text : List Char) : Nat × List (List Char) :=
  let tokens := runsOf isWordChar text
  (tokens.length, tokens)

/-- Embedding of `words_per_minute`; a missing duration is `none`, and the
Python guard `not duration_seconds or duration_seconds <= 0` returns 0.0. -/
def words_per_minute (total_words : Nat) (duration_seconds : Option ℚ) : ℚ :=
  match duration_seconds with
  | none => 0
  | some d => if d ≤ 0 then 0 else (total_words : ℚ) / (d / 60)

/-- The module-level `FILLER_WORDS` vocabulary, in source-literal order. -/
def FILLER_WORDS : List String :=
  ["um", "uh", "like", "you know", "i mean", "so", "actually",
   "basically", "right", "well", "hmm", "huh", "erm"]

/-- The loop body of `filler_stats`: for each phrase, count occurrences in
the (already lower-cased) text, keep phrases with positive count, and
accumulate the total. -/
def fillerLoop (ws : List String) (lower : List Char) : Nat × List (String × Nat) :=
  match ws with
  | [] => (0, [])
  | w :: rest =>
    let r := fillerLoop rest lower
    let c := countOcc w.data lower
    if 0 < c then (r.1 + c, (w, c) :: r.2) else r

/-- Embedding of `filler_stats`: returns `(total, by_word)`. -/
def filler_stats (text : List Char) : Nat × List (String × Nat) :=
  fillerLoop FILLER_WORDS (lowerL text)

/-- The per-keyword test of `keyword_coverage`:
`k.strip().lower() in transcript_text.lower()`. -/
def keywordHit (k : String) (lower : List Char) : Bool :=
  substrB (lowerL (stripL k.data)) lower

/-- The loop of `keyword_coverage`, appending each keyword to `found` or
`missing` in input order. -/
def kcLoop (ks : List String) (lower : List Char) : List String × List String :=
  match ks with
  | [] => ([], [])
  | k :: rest =>
    let r := kcLoop rest lower
    if keywordHit k lower then (k :: r.1, r.2) else (r.1, k :: r.2)

/-- Embedding of `keyword_coverage`: returns `(found, missing)`. -/
def keyword_coverage (user_keywords : List String) (transcript_text : List Char) :
    List String × List String :=
  kcLoop user_keywords (lowerL transcript_text)

/-- Computable floor of a rational (`q.num / q.den` with euclidean
integer division), equal to `Int.floor`. -/
def qfloor (q : ℚ) : ℤ :=
  q.num / q.den

/-- Round-half-to-even on a rational, the rounding used by Python `round`
on an exactly-representable value. -/
def rhe (q : ℚ) : ℤ :=
  if q - (qfloor q : ℚ) < 1/2 then qfloor q
  else if 1/2 < q - (qfloor q : ℚ) then qfloor q + 1
  else if 2 ∣ qfloor q then qfloor q else qfloor q + 1

/-- Embedding of Python `round(x, 1)`: round `x * 10` half-to-even, then
divide by 10. -/
def round1 (q : ℚ) : ℚ :=
  (rhe (q * 10) : ℚ) / 10

/-- Truncation toward zero, embedding Python `int(...)` on a number. -/
def truncQ (q : ℚ) : ℤ :=
  if q < 0 then -(qfloor (-q)) else qfloor q

/-- Embedding of `compute_overall_score`. -/
def compute_overall_score (wpm : ℚ) (filler_total : ℤ) (sentiment_compound : ℚ) : ℚ :=
  let wpm_score : ℚ :=
    if wpm ≤ 0 then 0
    else if 120 ≤ wpm ∧ wpm ≤ 160 then 20
    else max 0 (20 - (min |wpm - 140| 100) / 5)
  let filler_penalty : ℚ := min 20 ((filler_total : ℚ) * 2)
  let sentiment_bonus : ℚ := max (-10) (min 10 (sentiment_compound * 10))
  round1 (max 0 (min 100 (50 + wpm_score - filler_penalty + sentiment_bonus)))

/-- Embedding of `confidence_score`: the sentiment argument is the
optional compound entry, read with default 0 as `sentiment.get`. -/
def confidence_score (filler_total : ℤ) (sentiment : Option ℚ) (wpm : ℚ) : ℤ :=
  let compound := sentiment.getD 0
  let s1 : ℤ := 60 - min 20 filler_total
  let s2 : ℤ := s1 + truncQ (compound * 20)
  let s3 : ℤ := if wpm < 110 ∨ 180 < wpm then s2 - 8 else s2 + 5
  max 0 (min 100 s3)

/-- Embedding of `tone_label`. -/
def tone_label (sentiment : Option ℚ) (filler_total : ℤ) : String :=
  let c := sentiment.getD 0
  if c > 0.4 ∧ filler_total < 10 then "Confident"
  else if c < -0.2 ∧ filler_total > 10 then "Nervous"
  else if filler_total > 25 then "Uncertain"
  else "Neutral"

/-- The role hint for technical rounds. -/
def HINT_TECH : String :=
  " Responses could benefit from more concrete technical examples and clarity on design choices."

/-- The role hint for HR/behavioral rounds. -/
def HINT_HR : String :=
  " Consider focusing on structured storytelling (STAR) for behavioral answers."

/-- The role hint for managerial rounds. -/
def HINT_MGR : String :=
  " Consider emphasizing leadership decisions, outcomes, and stakeholder impact."

/-- Embedding of `generate_summary`.  The transcript argument is unused by
the source body but kept for signature fidelity. -/
def generate_summary (transcript : List Char) (wpm : ℚ) (compound : ℚ)
    (filler_total : ℤ) (round_type : String) : List Char :=
  let _ := transcript
  let mood : String :=
    if compound > 0.2 then "positive"
    else if compound > -0.2 then "neutral"
    else "negative"
  let pace_desc : String :=
    if wpm > 160 then "fast-paced"
    else if wpm < 110 then "slow-paced"
    else "well-paced"
  let filler_desc : String :=
    if filler_total > 20 then "high filler usage"
    else if filler_total > 5 then "moderate filler usage"
    else "minimal filler usage"
  let rl := lowerL round_type.data
  let role_hint : String :=
    if round_type ≠ "" ∧ (rl = "technical".data ∨ rl = "tech".data) then HINT_TECH
    else if round_type ≠ "" ∧ (rl = "hr".data ∨ rl = "behavioral".data) then HINT_HR
    else if round_type ≠ "" ∧ rl = "managerial".data then HINT_MGR
    else ""
  "This appears to be a ".data ++ round_type.data ++ " interview. The candidate spoke in a ".data
    ++ pace_desc.data ++ " manner with ".data ++ filler_desc.data
    ++ ". Overall sentiment was ".data ++ mood.data ++ ". ".data ++ role_hint.data

/-- Suggestion issued when `wpm > 160`. -/
def SUG_SLOW : String :=
  "Reduce speaking speed to improve clarity and allow listeners to follow."

/-- Suggestion issued when `wpm < 110`. -/
def SUG_FAST : String :=
  "Try to speak slightly faster and add more energy to your delivery."

/-- Suggestion issued when `filler_total > 15`. -/
def SUG_FILLER_HI : String :=
  "Work on removing filler words such as \x27um\x27, \x27uh\x27, and \x27like\x27 — practice pauses instead."

/-- Suggestion issued when `5 < filler_total <= 15`. -/
def SUG_FILLER_MID : String :=
  "Be mindful of filler words; aim to reduce them with focused practice."

/-- Suggestion issued when `compound < -0.2`. -/
def SUG_NEG : String :=
  "Aim for a more positive and confident tone when responding."

/-- Suggestion issued when `compound > 0.5`. -/
def SUG_POS : String :=
  "Your tone is positive — maintain this while balancing clarity."

/-- Fallback suggestion when no condition fires. -/
def SUG_OK : String :=
  "Good communication. Small refinements (pauses, clarity) may help make it stronger."

/-- Embedding of `improvement_suggestions`. -/
def improvement_suggestions (wpm : ℚ) (filler_total : ℤ) (compound : ℚ) : List String :=
  let pace : List String :=
    if wpm > 160 then [SUG_SLOW]
    else if wpm < 110 then [SUG_FAST]
    else []
  let filler : List String :=
    if filler_total > 15 then [SUG_FILLER_HI]
    else if filler_total > 5 then [SUG_FILLER_MID]
    else []
  let senti : List String :=
    if compound < -0.2 then [SUG_NEG]
    else if compound > 0.5 then [SUG_POS]
    else []
  let suggestions := pace ++ filler ++ senti
  if suggestions = [] then [SUG_OK] else suggestions

/-- The keyword list of `extract_key_points`, in source order. -/
def KEYWORDS : List String :=
  ["project", "designed", "implemented", "led", "improved", "reduced",
   "increased", "result", "achieve"]

/-- Sentence splitting of `extract_key_points`, embedding
`re.split` at a whitespace run preceded by one of `.`, `!`, `?`
(the look-behind checks the previously scanned character, held as the
head of the reversed accumulator `cur`). -/
def sentGo (cur : List Char) (inSep : Bool) : List Char → List (List Char)
  | [] => [cur.reverse]
  | c :: rest =>
    if inSep then
      if c.isWhitespace then sentGo cur true rest
      else sentGo [c] false rest
    else
      if c.isWhitespace && (cur.head? == some '.' || cur.head? == some '!' || cur.head? == some '?')
      then cur.reverse :: sentGo [] true rest
      else sentGo (c :: cur) false rest

/-- Sentence list of a stripped transcript. -/
def sentSplit (s : List Char) : List (List Char) :=
  sentGo [] false s

/-- The per-sentence score loop of `extract_key_points`: start from the
word count and add 5 for each keyword found as a case-insensitive
substring of the sentence. -/
def scoreSentence (s : List Char) : Nat :=
  KEYWORDS.foldl (fun acc k => if substrB k.data (lowerL s) then acc + 5 else acc)
    (wordCountPy s)

/-- The scored, cleaned sentence list of `extract_key_points` (empty
trimmed sentences are skipped, as by the `continue`). -/
def scoredOf (transcript : List Char) : List (Nat × List Char) :=
  (sentSplit (stripL transcript)).filterMap (fun s =>
    let s_clean := stripL s
    if s_clean.isEmpty then none else some (scoreSentence s_clean, s_clean))

/-- Stable descending insertion: `x` goes before the first element whose
score is at most `x`'s score. -/
def insertDesc (x : Nat × List Char) (l : List (Nat × List Char)) : List (Nat × List Char) :=
  match l with
  | [] => [x]
  | y :: ys => if y.1 ≤ x.1 then x :: y :: ys else y :: insertDesc x ys

/-- Stable descending sort by score, embedding
`scored.sort(reverse=True, key=lambda x: x[0])` (Python `list.sort` is a
stable sort; a stable descending sort is unique, so this insertion sort
denotes the same list). -/
def sortDesc (l : List (Nat × List Char)) : List (Nat × List Char) :=
  l.foldr insertDesc []

/-- Embedding of `extract_key_points`. -/
def extract_key_points (transcript : List Char) (max_points : Nat := 5) : List (List Char) :=
  if (stripL transcript).isEmpty then []
  else ((sortDesc (scoredOf transcript)).take max_points).map (fun p => p.2)

/-- Transcription of the claimed scoring rule for C6 (from the claim's
words, not from the source): a sentence scores its word count plus 5 for
each occurrence of any keyword, counted as case-insensitive substrings.
Kept separate so it can be compared with the implemented rule. -/
def claimedScoreOccur (s : List Char) : Nat :=
  wordCountPy s + 5 * (KEYWORDS.map (fun k => countOcc k.data (lowerL s))).sum

/-- The key-point extraction pipeline under the claimed per-occurrence
scoring rule of C6 (identical to `extract_key_points` except for the
sentence score). -/
def claimedExtractOccur (transcript : List Char) (max_points : Nat) : List (List Char) :=
  if (stripL transcript).isEmpty then []
  else ((sortDesc ((sentSplit (stripL transcript)).filterMap (fun s =>
    let s_clean := stripL s
    if s_clean.isEmpty then none
    else some (claimedScoreOccur s_clean, s_clean)))).take max_points).map (fun p => p.2)

/-- The per-presence sentence score: word count plus 5 for each keyword
present at least once as a case-insensitive substring (the amended
reading of the C6 scoring rule). -/
def presenceScore (s : List Char) : Nat :=
  wordCountPy s + 5 * KEYWORDS.countP (fun k => substrB k.data (lowerL s))

/-! ## Rounding lemmas -/

theorem qfloor_eq (q : ℚ) : qfloor q = ⌊q⌋ := by
  rw [Rat.floor_def]
  rfl

theorem floor_le_rhe (q : ℚ) : ⌊q⌋ ≤ rhe q := by
  simp only [rhe, qfloor_eq]
  split_ifs <;> omega

theorem rhe_le_ceil (q : ℚ) : rhe q ≤ ⌈q⌉ := by
  have hfc : ⌊q⌋ ≤ ⌈q⌉ := Int.floor_le_ceil q
  have hcq : q ≤ (⌈q⌉ : ℚ) := Int.le_ceil q
  have hfq : (⌊q⌋ : ℚ) ≤ q := Int.floor_le q
  simp only [rhe, qfloor_eq]
  split_ifs with h1 h2 h3
  · exact hfc
  · have h : (⌊q⌋ : ℚ) < (⌈q⌉ : ℚ) := by linarith
    have := Int.cast_lt.mp h
    omega
  · exact hfc
  · have h : (⌊q⌋ : ℚ) < (⌈q⌉ : ℚ) := by linarith
    have := Int.cast_lt.mp h
    omega

theorem int_le_round1 (n : ℤ) (q : ℚ) (h : (n : ℚ) ≤ q) : (n : ℚ) ≤ round1 q := by
  have h10 : (10 * n : ℤ) ≤ ⌊q * 10⌋ := by
    apply Int.le_floor.mpr
    push_cast
    linarith
  have h2 : (10 * n : ℤ) ≤ rhe (q * 10) := le_trans h10 (floor_le_rhe _)
  have h3 : ((10 * n : ℤ) : ℚ) ≤ (rhe (q * 10) : ℚ) := by exact_mod_cast h2
  simp only [round1]
  push_cast at h3
  linarith

theorem round1_le_int (q : ℚ) (n : ℤ) (h : q ≤ (n : ℚ)) : round1 q ≤ (n : ℚ) := by
  have h10 : ⌈q * 10⌉ ≤ 10 * n := by
    apply Int.ceil_le.mpr
    push_cast
    linarith
  have h2 : rhe (q * 10) ≤ 10 * n := le_trans (rhe_le_ceil _) h10
  have h3 : (rhe (q * 10) : ℚ) ≤ ((10 * n : ℤ) : ℚ) := by exact_mod_cast h2
  simp only [round1]
  push_cast at h3
  linarith

theorem round1_tenths (q : ℚ) : ∃ n : ℤ, round1 q = (n : ℚ) / 10 :=
  ⟨rhe (q * 10), rfl⟩

theorem rhe_intCast (n : ℤ) : rhe ((n : ℤ) : ℚ) = n := by
  simp only [rhe, qfloor_eq, Int.floor_intCast, sub_self]
  norm_num

theorem round1_intCast (n : ℤ) : round1 ((n : ℤ) : ℚ) = (n : ℚ) := by
  have h : ((n : ℚ)) * 10 = ((10 * n : ℤ) : ℚ) := by
    push_cast
    ring
  simp only [round1, h, rhe_intCast]
  push_cast
  ring

/-! ## Claims C1 and C2 (composite scorer) -/

/-- Claim C1: for every rational `wpm`, every integer `filler_total >= 0`,
and every `compound` in the interval from -1 to 1,
`compute_overall_score` returns a value between 0 and 100 that is a
multiple of one tenth (rounded to 1 decimal place), however extreme
`wpm` or `filler_total` are. -/
theorem C1_compute_overall_score_range (wpm : ℚ) (filler_total : ℤ) (compound : ℚ)
    (hf : 0 ≤ filler_total) (hc1 : -1 ≤ compound) (hc2 : compound ≤ 1) :
    0 ≤ compute_overall_score wpm filler_total compound ∧
    compute_overall_score wpm filler_total compound ≤ 100 ∧
    ∃ n : ℤ, compute_overall_score wpm filler_total compound = (n : ℚ) / 10 := by
  simp only [compute_overall_score]
  refine ⟨?_, ?_, round1_tenths _⟩
  · have h0 : ((0 : ℤ) : ℚ) ≤ max 0 (min 100 (50 +
        (if wpm ≤ 0 then 0
         else if 120 ≤ wpm ∧ wpm ≤ 160 then 20
         else max 0 (20 - (min |wpm - 140| 100) / 5)) -
        min 20 ((filler_total : ℚ) * 2) + max (-10) (min 10 (compound * 10)))) := by
      push_cast
      exact le_max_left _ _
    have := int_le_round1 0 _ h0
    push_cast at this
    exact this
  · have h100 : max (0 : ℚ) (min 100 (50 +
        (if wpm ≤ 0 then 0
         else if 120 ≤ wpm ∧ wpm ≤ 160 then 20
         else max 0 (20 - (min |wpm - 140| 100) / 5)) -
        min 20 ((filler_total : ℚ) * 2) + max (-10) (min 10 (compound * 10)))) ≤ ((100 : ℤ) : ℚ) := by
      push_cast
      exact max_le (by norm_num) (min_le_left _ _)
    have := round1_le_int _ 100 h100
    push_cast at this
    exact this

/-- Witness for C1 at `wpm = 200`, `filler_total = 3`, `compound = 1`. -/
theorem C1_witness :
    0 ≤ compute_overall_score 200 3 1 ∧
    compute_overall_score 200 3 1 ≤ 100 ∧
    ∃ n : ℤ, compute_overall_score 200 3 1 = (n : ℚ) / 10 :=
  C1_compute_overall_score_range 200 3 1 (by norm_num) (by norm_num) (by norm_num)

/-- Claim C2: with no fillers and neutral sentiment,
`compute_overall_score wpm 0 0` equals exactly 70 on the ideal band
`120 <= wpm <= 160`, and is strictly below 70 for every `wpm` outside the
band (the pace term is 0 for `wpm <= 0`, 20 on the band, and otherwise
`max 0 (20 - d / 5)` with `d = min |wpm - 140| 100`). -/
theorem C2_ideal_band_unique_max (wpm : ℚ) :
    ((120 ≤ wpm ∧ wpm ≤ 160) → compute_overall_score wpm 0 0 = 70) ∧
    (¬(120 ≤ wpm ∧ wpm ≤ 160) → compute_overall_score wpm 0 0 < 70) := by
  constructor
  · rintro ⟨h1, h2⟩
    have hpos : ¬ wpm ≤ 0 := by linarith
    simp only [compute_overall_score, if_neg hpos, if_pos (And.intro h1 h2)]
    have harg : max (0:ℚ) (min 100 (50 + 20 - min 20 (((0:ℤ) : ℚ) * 2) +
        max (-10) (min 10 ((0:ℚ) * 10)))) = ((70 : ℤ) : ℚ) := by
      push_cast
      norm_num
    rw [harg, round1_intCast]
    norm_num
  · intro hout
    have hlt : ∀ q : ℚ, q < 66 → round1 q < 70 := by
      intro q hq
      have h66 : round1 q ≤ ((66 : ℤ) : ℚ) := round1_le_int q 66 (by push_cast; linarith)
      push_cast at h66
      linarith
    by_cases hw : wpm ≤ 0
    · simp only [compute_overall_score, if_pos hw]
      apply hlt
      have : max (0:ℚ) (min 100 (50 + 0 - min 20 (((0:ℤ) : ℚ) * 2) +
          max (-10) (min 10 ((0:ℚ) * 10)))) = 50 := by
        push_cast
        norm_num
      rw [this]
      norm_num
    · have habs : (20 : ℚ) < |wpm - 140| := by
        rcases not_and_or.mp hout with h | h
        · push_neg at h
          have h20 : (20:ℚ) < 140 - wpm := by linarith
          calc (20:ℚ) < 140 - wpm := h20
            _ ≤ |140 - wpm| := le_abs_self _
            _ = |wpm - 140| := abs_sub_comm _ _
        · push_neg at h
          have h20 : (20:ℚ) < wpm - 140 := by linarith
          exact lt_of_lt_of_le h20 (le_abs_self _)
      have hd : (20 : ℚ) < min |wpm - 140| 100 := lt_min habs (by norm_num)
      simp only [compute_overall_score, if_neg hw, if_neg hout]
      apply hlt
      have hws : max (0:ℚ) (20 - (min |wpm - 140| 100) / 5) < 16 := by
        apply max_lt (by norm_num)
        linarith
      have hpen : min (20:ℚ) (((0:ℤ) : ℚ) * 2) = 0 := by
        push_cast
        norm_num
      have hbon : max (-10 : ℚ) (min 10 ((0:ℚ) * 10)) = 0 := by
        norm_num
      rw [hpen, hbon]
      have hinner : (50 : ℚ) + max 0 (20 - (min |wpm - 140| 100) / 5) - 0 + 0 < 66 := by
        linarith
      calc max (0:ℚ) (min 100 (50 + max 0 (20 - (min |wpm - 140| 100) / 5) - 0 + 0))
          ≤ max (0:ℚ) (50 + max 0 (20 - (min |wpm - 140| 100) / 5) - 0 + 0) := by
            apply max_le_max le_rfl (min_le_right _ _)
        _ < 66 := by
            apply max_lt (by norm_num) hinner

/-- Witness for C2: the band case at `wpm = 140` and the out-of-band case
at `wpm = 200`. -/
theorem C2_witness :
    compute_overall_score 140 0 0 = 70 ∧ compute_overall_score 200 0 0 < 70 :=
  ⟨(C2_ideal_band_unique_max 140).1 (by norm_num),
   (C2_ideal_band_unique_max 200).2 (by norm_num)⟩

/-! ## Claims C3 and C4 (confidence estimator, tone classifier) -/

/-- Claim C3: for `filler_total >= 0` and `compound` between -1 and 1,
`confidence_score` equals 60 minus `min 20 filler_total`, plus
`compound * 20` truncated toward zero, then minus 8 when `wpm < 110` or
`wpm > 180` and plus 5 otherwise, clamped to the interval from 0 to 100;
the result is always an integer in that interval. -/
theorem C3_confidence_score_formula (filler_total : ℤ) (compound : ℚ) (wpm : ℚ)
    (hf : 0 ≤ filler_total) (hc1 : -1 ≤ compound) (hc2 : compound ≤ 1) :
    confidence_score filler_total (some compound) wpm =
      max 0 (min 100 ((60 - min 20 filler_total + truncQ (compound * 20)) +
        (if wpm < 110 ∨ 180 < wpm then -8 else 5))) ∧
    0 ≤ confidence_score filler_total (some compound) wpm ∧
    confidence_score filler_total (some compound) wpm ≤ 100 := by
  refine ⟨?_, ?_, ?_⟩
  · simp only [confidence_score, Option.getD_some]
    split_ifs <;> ring_nf
  · simp only [confidence_score, Option.getD_some]
    exact le_max_left _ _
  · simp only [confidence_score, Option.getD_some]
    exact max_le (by norm_num) (min_le_left _ _)

/-- Witness for C3 at `filler_total = 4`, `compound = 1`, `wpm = 90`. -/
theorem C3_witness :
    confidence_score 4 (some 1) 90 =
      max 0 (min 100 ((60 - min 20 4 + truncQ ((1 : ℚ) * 20)) +
        (if (90 : ℚ) < 110 ∨ (180 : ℚ) < 90 then -8 else 5))) ∧
    0 ≤ confidence_score 4 (some 1) 90 ∧ confidence_score 4 (some 1) 90 ≤ 100 :=
  C3_confidence_score_formula 4 1 90 (by norm_num) (by norm_num) (by norm_num)

/-- Claim C4: `tone_label` evaluates its decision table in fixed priority
order with first match winning (Confident, then Nervous, then Uncertain,
then Neutral), and yields the four documented labels on the four
documented example inputs. -/
theorem C4_tone_label_decision_table (compound : ℚ) (filler_total : ℤ) :
    ((compound > 0.4 ∧ filler_total < 10) →
      tone_label (some compound) filler_total = "Confident") ∧
    (¬(compound > 0.4 ∧ filler_total < 10) → (compound < -0.2 ∧ filler_total > 10) →
      tone_label (some compound) filler_total = "Nervous") ∧
    (¬(compound > 0.4 ∧ filler_total < 10) → ¬(compound < -0.2 ∧ filler_total > 10) →
      filler_total > 25 → tone_label (some compound) filler_total = "Uncertain") ∧
    (¬(compound > 0.4 ∧ filler_total < 10) → ¬(compound < -0.2 ∧ filler_total > 10) →
      ¬(filler_total > 25) → tone_label (some compound) filler_total = "Neutral") ∧
    tone_label (some 0.6) 2 = "Confident" ∧
    tone_label (some (-0.5)) 15 = "Nervous" ∧
    tone_label (some 0) 30 = "Uncertain" ∧
    tone_label (some 0) 0 = "Neutral" := by
  refine ⟨?_, ?_, ?_, ?_, ?_, ?_, ?_, ?_⟩
  · intro h
    simp only [tone_label, Option.getD_some]
    rw [if_pos h]
  · intro h1 h2
    simp only [tone_label, Option.getD_some]
    rw [if_neg h1, if_pos h2]
  · intro h1 h2 h3
    simp only [tone_label, Option.getD_some]
    rw [if_neg h1, if_neg h2, if_pos h3]
  · intro h1 h2 h3
    simp only [tone_label, Option.getD_some]
    rw [if_neg h1, if_neg h2, if_neg h3]
  · norm_num [tone_label]
  · norm_num [tone_label]
  · norm_num [tone_label]
  · norm_num [tone_label]

/-- Witness for C4: the Confident rule fires at `compound = 1`,
`filler_total = 0`. -/
theorem C4_witness : tone_label (some 1) 0 = "Confident" :=
  (C4_tone_label_decision_table 1 0).1 (by norm_num)

/-! ## Claim C5 (filler detector) -/

theorem fillerLoop_total (ws : List String) (lower : List Char) :
    (fillerLoop ws lower).1 = ((fillerLoop ws lower).2.map Prod.snd).sum := by
  induction ws with
  | nil => rfl
  | cons w rest ih =>
    simp only [fillerLoop]
    split_ifs with h
    · simp only [List.map_cons, List.sum_cons]
      omega
    · exact ih

theorem fillerLoop_mem (ws : List String) (lower : List Char) (w : String) (c : Nat) :
    ((w, c) ∈ (fillerLoop ws lower).2) ↔
      (w ∈ ws ∧ c = countOcc w.data lower ∧ 0 < c) := by
  induction ws with
  | nil => simp [fillerLoop]
  | cons w' rest ih =>
    simp only [fillerLoop]
    split_ifs with h
    · simp only [List.mem_cons, Prod.mk.injEq]
      constructor
      · rintro (⟨hw, hc⟩ | hmem)
        · subst hw
          exact ⟨Or.inl rfl, hc, by omega⟩
        · obtain ⟨hmem', hc, hpos⟩ := ih.mp hmem
          exact ⟨Or.inr hmem', hc, hpos⟩
      · rintro ⟨hw | hmem, hc, hpos⟩
        · subst hw
          exact Or.inl ⟨rfl, hc⟩
        · exact Or.inr (ih.mpr ⟨hmem, hc, hpos⟩)
    · rw [ih]
      constructor
      · rintro ⟨hmem, hc, hpos⟩
        exact ⟨List.mem_cons_of_mem _ hmem, hc, hpos⟩
      · rintro ⟨hmem, hc, hpos⟩
        rcases List.mem_cons.mp hmem with hw | hmem'
        · subst hw
          omega
        · exact ⟨hmem', hc, hpos⟩

/-- Claim C5: `filler_stats` counts each fixed filler phrase as
case-insensitive non-overlapping substring occurrences of the lower-cased
text, keeps in `by_word` exactly the phrases with positive count, and its
`total` equals the sum of the `by_word` counts; on the two documented
examples it returns total 3 with um mapped to 2 and uh mapped to 1, and
total 0 with an empty breakdown. -/
theorem C5_filler_stats_invariant :
    (∀ text : List Char,
      (filler_stats text).1 = ((filler_stats text).2.map Prod.snd).sum ∧
      (∀ (w : String) (c : Nat), ((w, c) ∈ (filler_stats text).2 ↔
        (w ∈ FILLER_WORDS ∧ c = countOcc w.data (lowerL text) ∧ 0 < c)))) ∧
    (filler_stats "um um uh".data).1 = 3 ∧
    (filler_stats "um um uh".data).2.lookup "um" = some 2 ∧
    (filler_stats "um um uh".data).2.lookup "uh" = some 1 ∧
    (filler_stats "um um uh".data).2.length = 2 ∧
    filler_stats "".data = (0, []) := by
  refine ⟨?_, by decide, by decide, by decide, by decide, by decide⟩
  intro text
  exact ⟨fillerLoop_total _ _, fun w c => fillerLoop_mem _ _ w c⟩

/-- Witness for C5: the total/sum invariant evaluated on a concrete text. -/
theorem C5_witness :
    (filler_stats "that was basically right".data).1 =
      ((filler_stats "that was basically right".data).2.map Prod.snd).sum :=
  (C5_filler_stats_invariant.1 "that was basically right".data).1

/-! ## Claim C9 (keyword coverage) -/

theorem kcLoop_eq (ks : List String) (lower : List Char) :
    kcLoop ks lower =
      (ks.filter (fun k => keywordHit k lower),
       ks.filter (fun k => !(keywordHit k lower))) := by
  induction ks with
  | nil => rfl
  | cons k rest ih =>
    simp only [kcLoop, List.filter_cons]
    cases h : keywordHit k lower <;> simp [h, ih]

/-- Claim C9: `keyword_coverage` classifies each keyword by trimming,
lower-casing and substring-testing against the lower-cased transcript;
found and missing are the matching and non-matching keywords in input
order (sublists of the input), they partition the input with no overlap,
and an empty keyword list yields two empty lists. -/
theorem C9_keyword_coverage_partition (user_keywords : List String) (transcript : List Char) :
    (keyword_coverage user_keywords transcript).1 =
      user_keywords.filter (fun k => keywordHit k (lowerL transcript)) ∧
    (keyword_coverage user_keywords transcript).2 =
      user_keywords.filter (fun k => !(keywordHit k (lowerL transcript))) ∧
    (∀ k, k ∈ (keyword_coverage user_keywords transcript).1 ↔
      (k ∈ user_keywords ∧ keywordHit k (lowerL transcript) = true)) ∧
    (∀ k, k ∈ (keyword_coverage user_keywords transcript).2 ↔
      (k ∈ user_keywords ∧ keywordHit k (lowerL transcript) = false)) ∧
    List.Sublist (keyword_coverage user_keywords transcript).1 user_keywords ∧
    List.Sublist (keyword_coverage user_keywords transcript).2 user_keywords ∧
    (keyword_coverage user_keywords transcript).1.length +
      (keyword_coverage user_keywords transcript).2.length = user_keywords.length ∧
    (user_keywords = [] → keyword_coverage user_keywords transcript = ([], [])) := by
  have h := kcLoop_eq user_keywords (lowerL transcript)
  refine ⟨?_, ?_, ?_, ?_, ?_, ?_, ?_, ?_⟩
  · rw [keyword_coverage, h]
  · rw [keyword_coverage, h]
  · intro k
    rw [keyword_coverage, h]
    simp [List.mem_filter]
  · intro k
    rw [keyword_coverage, h]
    simp [List.mem_filter]
  · rw [keyword_coverage, h]
    exact List.filter_sublist _
  · rw [keyword_coverage, h]
    exact List.filter_sublist _
  · rw [keyword_coverage, h]
    exact (List.length_eq_length_filter_add _).symm
  · intro hk
    subst hk
    rfl

/-- Witness for C9 on the documented example input. -/
theorem C9_witness :
    (keyword_coverage ["Data", "Missing"] "We used data and algorithms.".data).1 =
      ["Data", "Missing"].filter
        (fun k => keywordHit k (lowerL "We used data and algorithms.".data)) ∧
    (keyword_coverage ["Data", "Missing"] "We used data and algorithms.".data).2 =
      ["Data", "Missing"].filter
        (fun k => !(keywordHit k (lowerL "We used data and algorithms.".data))) :=
  ⟨(C9_keyword_coverage_partition ["Data", "Missing"] "We used data and algorithms.".data).1,
   (C9_keyword_coverage_partition ["Data", "Missing"] "We used data and algorithms.".data).2.1⟩

/-! ## Claim C8 (suggestion generator) -/

/-- Claim C8: `improvement_suggestions` lists its advisories in fixed
order (pace, then filler, then sentiment — a sublist of the fixed
priority list); the two pace suggestions are mutually exclusive, as are
the two filler and the two sentiment ones; and when `110 <= wpm <= 160`,
`filler_total <= 5` and `-0.2 <= compound <= 0.5` the result is exactly
the single generic affirmation. -/
theorem C8_improvement_suggestions_order (wpm : ℚ) (filler_total : ℤ) (compound : ℚ) :
    List.Sublist (improvement_suggestions wpm filler_total compound)
      [SUG_SLOW, SUG_FAST, SUG_FILLER_HI, SUG_FILLER_MID, SUG_NEG, SUG_POS, SUG_OK] ∧
    ¬(SUG_SLOW ∈ improvement_suggestions wpm filler_total compound ∧
      SUG_FAST ∈ improvement_suggestions wpm filler_total compound) ∧
    ¬(SUG_FILLER_HI ∈ improvement_suggestions wpm filler_total compound ∧
      SUG_FILLER_MID ∈ improvement_suggestions wpm filler_total compound) ∧
    ¬(SUG_NEG ∈ improvement_suggestions wpm filler_total compound ∧
      SUG_POS ∈ improvement_suggestions wpm filler_total compound) ∧
    (110 ≤ wpm → wpm ≤ 160 → filler_total ≤ 5 → -0.2 ≤ compound → compound ≤ 0.5 →
      improvement_suggestions wpm filler_total compound = [SUG_OK]) := by
  refine ⟨?_, ?_, ?_, ?_, ?_⟩
  · simp only [improvement_suggestions]
    set P := (if wpm > 160 then [SUG_SLOW] else if wpm < 110 then [SUG_FAST] else []) with hP
    set F := (if filler_total > 15 then [SUG_FILLER_HI]
              else if filler_total > 5 then [SUG_FILLER_MID] else []) with hF
    set S := (if compound < -0.2 then [SUG_NEG]
              else if compound > 0.5 then [SUG_POS] else []) with hS
    have hp : List.Sublist P [SUG_SLOW, SUG_FAST] := by
      rw [hP]
      split_ifs <;> simp
    have hfl : List.Sublist F [SUG_FILLER_HI, SUG_FILLER_MID] := by
      rw [hF]
      split_ifs <;> simp
    have hs : List.Sublist S [SUG_NEG, SUG_POS] := by
      rw [hS]
      split_ifs <;> simp
    split_ifs with hemp
    · simp [List.singleton_sublist]
    · refine List.Sublist.trans ((hp.append hfl).append hs) ?_
      exact List.sublist_append_left
        [SUG_SLOW, SUG_FAST, SUG_FILLER_HI, SUG_FILLER_MID, SUG_NEG, SUG_POS] [SUG_OK]
  · simp only [improvement_suggestions]
    split_ifs <;>
      simp [SUG_SLOW, SUG_FAST, SUG_FILLER_HI, SUG_FILLER_MID, SUG_NEG, SUG_POS, SUG_OK]
  · simp only [improvement_suggestions]
    split_ifs <;>
      simp [SUG_SLOW, SUG_FAST, SUG_FILLER_HI, SUG_FILLER_MID, SUG_NEG, SUG_POS, SUG_OK]
  · simp only [improvement_suggestions]
    split_ifs <;>
      simp [SUG_SLOW, SUG_FAST, SUG_FILLER_HI, SUG_FILLER_MID, SUG_NEG, SUG_POS, SUG_OK]
  · intro h1 h2 h3 h4 h5
    simp only [improvement_suggestions]
    split_ifs <;>
      first
      | (exfalso; linarith)
      | (exfalso; omega)
      | rfl
      | simp_all

/-- Witness for C8: the all-good band yields exactly the generic
affirmation. -/
theorem C8_witness : improvement_suggestions 140 0 0 = [SUG_OK] :=
  (C8_improvement_suggestions_order 140 0 0).2.2.2.2
    (by norm_num) (by norm_num) (by norm_num) (by norm_num) (by norm_num)

/-! ## Claim C7 (summary generator on an empty transcript) -/

theorem isPrefixOf_append_of (p a b : List Char) (h : p.isPrefixOf a = true) :
    p.isPrefixOf (a ++ b) = true := by
  induction p generalizing a with
  | nil => simp [List.isPrefixOf]
  | cons x p' ih =>
    cases a with
    | nil => simp [List.isPrefixOf] at h
    | cons y a' =>
      simp only [List.cons_append, List.isPrefixOf, Bool.and_eq_true, beq_iff_eq] at h ⊢
      exact ⟨h.1, ih a' h.2⟩

theorem substrB_nil_left (b : List Char) : substrB [] b = true := by
  cases b <;> simp [substrB, List.isPrefixOf]

theorem substrB_cons_of (p : List Char) (c : Char) (s : List Char)
    (h : substrB p s = true) : substrB p (c :: s) = true := by
  simp only [substrB, Bool.or_eq_true]
  exact Or.inr h

theorem substrB_append_right (p a b : List Char) (h : substrB p b = true) :
    substrB p (a ++ b) = true := by
  induction a with
  | nil => simpa using h
  | cons c a' ih =>
    simp only [List.cons_append, substrB, Bool.or_eq_true]
    exact Or.inr ih

theorem substrB_append_left (p a b : List Char) (h : substrB p a = true) :
    substrB p (a ++ b) = true := by
  induction a with
  | nil =>
    have hp : p = [] := by simpa [substrB] using h
    subst hp
    exact substrB_nil_left _
  | cons c a' ih =>
    simp only [substrB, Bool.or_eq_true] at h
    simp only [List.cons_append, substrB, Bool.or_eq_true]
    rcases h with h | h
    · exact Or.inl (isPrefixOf_append_of _ _ _ h)
    · exact Or.inr (ih h)

/-- Counterexample for C7: on an empty transcript with no duration the
word count is 0, the filler total is 0, the pace is 0.0, and the summary
describes the answer as slow-paced, not as well-paced (because
`0 < 110`). -/
theorem C7_counterexample :
    words_per_minute (count_words "".data).1 none = 0 ∧
    (filler_stats "".data).1 = 0 ∧
    substrB "well-paced".data
      (generate_summary "".data (words_per_minute (count_words "".data).1 none) 0
        (((filler_stats "".data).1 : ℤ)) "Technical") = false ∧
    substrB "slow-paced".data
      (generate_summary "".data (words_per_minute (count_words "".data).1 none) 0
        (((filler_stats "".data).1 : ℤ)) "Technical") = true := by
  have h0 : words_per_minute (count_words "".data).1 none = (0 : ℚ) := rfl
  have hft : (((filler_stats "".data).1 : ℤ)) = 0 := rfl
  refine ⟨rfl, by decide, ?_, ?_⟩ <;>
  · rw [h0, hft]
    simp only [generate_summary]
    norm_num
    decide

/-- Claim C7 (amended): for an empty transcript with no duration (word
count 0, filler total 0, wpm 0.0) and neutral sentiment, for every round
type, `generate_summary` still produces a summary paragraph using the
default category boundaries, describing the answer with minimal filler
usage and as slow-paced (wpm 0 falls in the `wpm < 110` band). -/
theorem C7_empty_transcript_summary (round_type : String) :
    substrB "minimal filler usage".data
      (generate_summary "".data (words_per_minute (count_words "".data).1 none) 0
        (((filler_stats "".data).1 : ℤ)) round_type) = true ∧
    substrB "slow-paced".data
      (generate_summary "".data (words_per_minute (count_words "".data).1 none) 0
        (((filler_stats "".data).1 : ℤ)) round_type) = true := by
  have h0 : words_per_minute (count_words "".data).1 none = (0 : ℚ) := rfl
  have hft : (((filler_stats "".data).1 : ℤ)) = 0 := rfl
  constructor <;>
  · rw [h0, hft]
    simp only [generate_summary]
    norm_num
    repeat (apply substrB_cons_of)
    apply substrB_append_right
    split_ifs <;> decide

/-- Witness for C7 at the HR round type. -/
theorem C7_witness :
    substrB "minimal filler usage".data
      (generate_summary "".data (words_per_minute (count_words "".data).1 none) 0
        (((filler_stats "".data).1 : ℤ)) "HR") = true ∧
    substrB "slow-paced".data
      (generate_summary "".data (words_per_minute (count_words "".data).1 none) 0
        (((filler_stats "".data).1 : ℤ)) "HR") = true :=
  C7_empty_transcript_summary "HR"

/-! ## Claims C6 and C10 (key-point extractor) -/

theorem foldl_add5 (ks : List String) (p : String → Bool) (n : Nat) :
    ks.foldl (fun acc k => if p k then acc + 5 else acc) n = n + 5 * ks.countP p := by
  induction ks generalizing n with
  | nil => simp
  | cons k rest ih =>
    simp only [List.foldl_cons, List.countP_cons]
    split_ifs with h
    · rw [ih]
      omega
    · rw [ih]
      omega

theorem scoreSentence_eq (s : List Char) :
    scoreSentence s = wordCountPy s + 5 * KEYWORDS.countP (fun k => substrB k.data (lowerL s)) :=
  foldl_add5 KEYWORDS (fun k => substrB k.data (lowerL s)) (wordCountPy s)

theorem mem_insertDesc (x y : Nat × List Char) (l : List (Nat × List Char)) :
    y ∈ insertDesc x l ↔ y = x ∨ y ∈ l := by
  induction l with
  | nil => simp [insertDesc]
  | cons z zs ih =>
    simp only [insertDesc]
    split_ifs with h
    · simp [List.mem_cons]
    · simp only [List.mem_cons, ih]
      tauto

theorem pairwise_insertDesc (x : Nat × List Char) (l : List (Nat × List Char))
    (hl : l.Pairwise (fun a b => b.1 ≤ a.1)) :
    (insertDesc x l).Pairwise (fun a b => b.1 ≤ a.1) := by
  induction l with
  | nil => simp [insertDesc]
  | cons z zs ih =>
    rcases List.pairwise_cons.mp hl with ⟨hz, hzs⟩
    simp only [insertDesc]
    split_ifs with h
    · apply List.pairwise_cons.mpr
      refine ⟨?_, hl⟩
      intro b hb
      rcases List.mem_cons.mp hb with rfl | hb'
      · exact h
      · exact le_trans (hz b hb') h
    · apply List.pairwise_cons.mpr
      refine ⟨?_, ih hzs⟩
      intro b hb
      rcases (mem_insertDesc x b zs).mp hb with rfl | hb'
      · omega
      · exact hz b hb'

theorem perm_insertDesc (x : Nat × List Char) (l : List (Nat × List Char)) :
    List.Perm (insertDesc x l) (x :: l) := by
  induction l with
  | nil => exact List.Perm.refl _
  | cons z zs ih =>
    simp only [insertDesc]
    split_ifs with h
    · exact List.Perm.refl _
    · exact (List.Perm.cons z ih).trans (List.Perm.swap x z zs)

theorem sortDesc_pairwise (l : List (Nat × List Char)) :
    (sortDesc l).Pairwise (fun a b => b.1 ≤ a.1) := by
  induction l with
  | nil => simp [sortDesc]
  | cons x xs ih =>
    exact pairwise_insertDesc x (sortDesc xs) ih

theorem sortDesc_perm (l : List (Nat × List Char)) :
    List.Perm (sortDesc l) l := by
  induction l with
  | nil => exact List.Perm.refl _
  | cons x xs ih =>
    exact (perm_insertDesc x (sortDesc xs)).trans (List.Perm.cons x ih)

theorem filter_insertDesc (x : Nat × List Char) (l : List (Nat × List Char)) (k : Nat) :
    (insertDesc x l).filter (fun y => y.1 == k) =
      if x.1 == k then x :: l.filter (fun y => y.1 == k)
      else l.filter (fun y => y.1 == k) := by
  induction l with
  | nil =>
    cases hx : (x.1 == k) <;> simp [insertDesc, List.filter_cons, hx]
  | cons z zs ih =>
    by_cases hzx : z.1 ≤ x.1
    · have hins : insertDesc x (z :: zs) = x :: z :: zs := by
        simp [insertDesc, hzx]
      rw [hins, List.filter_cons]
    · have hins : insertDesc x (z :: zs) = z :: insertDesc x zs := by
        simp [insertDesc, hzx]
      rw [hins, List.filter_cons, ih]
      cases hx : (x.1 == k) with
      | true =>
        have hxk : x.1 = k := by simpa using hx
        have hzk : (z.1 == k) = false := by
          have hne : ¬ z.1 = k := by omega
          simpa using hne
        simp [List.filter_cons, hx, hzk]
      | false =>
        simp [List.filter_cons, hx]

theorem filter_sortDesc (l : List (Nat × List Char)) (k : Nat) :
    (sortDesc l).filter (fun y => y.1 == k) = l.filter (fun y => y.1 == k) := by
  induction l with
  | nil => rfl
  | cons x xs ih =>
    show ((insertDesc x (sortDesc xs)).filter _) = _
    rw [filter_insertDesc, List.filter_cons]
    split_ifs with h
    · rw [ih]
    · rw [ih]

/-- Counterexample for C6: on a transcript whose first sentence contains
the keyword "project" twice, the implemented extractor (which adds 5 once
per keyword present) disagrees with the claimed per-occurrence scoring
(which would add 5 twice and rank that sentence first). -/
theorem C6_counterexample :
    extract_key_points
      "project project go. one two three four five six seven eight nine.".data 1 ≠
    claimedExtractOccur
      "project project go. one two three four five six seven eight nine.".data 1 := by
  decide

/-- Claim C6 (amended): `extract_key_points` scores every non-empty
trimmed sentence as its word count plus 5 for each keyword of the fixed
list that occurs at least once as a case-insensitive substring, sorts the
scored sentences descending by score with a stable sort, and returns the
top `max_points` sentence texts; an empty or whitespace-only transcript
yields the empty list.  The sorted list is pairwise descending and a
permutation of the scored list. -/
theorem C6_extract_key_points_presence (transcript : List Char) (max_points : Nat) :
    extract_key_points transcript max_points =
      (if (stripL transcript).isEmpty then []
       else ((sortDesc ((sentSplit (stripL transcript)).filterMap (fun s =>
         if (stripL s).isEmpty then none
         else some (presenceScore (stripL s), stripL s)))).take max_points).map
           (fun p => p.2)) ∧
    ((stripL transcript).isEmpty = true → extract_key_points transcript max_points = []) ∧
    (sortDesc (scoredOf transcript)).Pairwise (fun a b => b.1 ≤ a.1) ∧
    List.Perm (sortDesc (scoredOf transcript)) (scoredOf transcript) := by
  refine ⟨?_, ?_, sortDesc_pairwise _, sortDesc_perm _⟩
  · have hfn : (fun s : List Char =>
        if (stripL s).isEmpty then none
        else some (scoreSentence (stripL s), stripL s)) =
        (fun s : List Char =>
          if (stripL s).isEmpty then none
          else some (presenceScore (stripL s), stripL s)) := by
      funext s
      simp only [scoreSentence_eq, presenceScore]
    simp only [extract_key_points, scoredOf, hfn]
  · intro h
    simp [extract_key_points, h]

/-- Witness for C6: a whitespace-only transcript yields the empty list. -/
theorem C6_witness : extract_key_points "   ".data 3 = [] :=
  (C6_extract_key_points_presence "   ".data 3).2.1 (by decide)

/-- Claim C10: the descending sort of the scored sentences is stable —
for every score, the sentences holding that score appear in the sorted
list in their original transcript order — and hence, when `max_points`
truncates a tie, the earliest tied sentences are the ones kept, as on the
three-way tie example. -/
theorem C10_sort_stability :
    (∀ (transcript : List Char) (k : Nat),
      (sortDesc (scoredOf transcript)).filter (fun y => y.1 == k) =
        (scoredOf transcript).filter (fun y => y.1 == k)) ∧
    extract_key_points "One two three. Four five six. Seven eight nine.".data 2 =
      ["One two three.".data, "Four five six.".data] := by
  exact ⟨fun t k => filter_sortDesc _ _, by decide⟩

/-- Witness for C10: the tie-preservation equation on a concrete
transcript at score 3. -/
theorem C10_witness :
    (sortDesc (scoredOf "One two three. Four five six. Seven eight nine.".data)).filter
        (fun y => y.1 == 3) =
      (scoredOf "One two three. Four five six. Seven eight nine.".data).filter
        (fun y => y.1 == 3) :=
  C10_sort_stability.1 "One two three. Four five six. Seven eight nine.".data 3
